import Mathlib

/-!
Verification of the forza-analyse telemetry engine and its collaborators.

The repository consists of a capture subsystem (`src/CaptureMode.py`), a
settings manager (`src/Settings.py`), static configuration (`src/Utility.py`)
and the telemetry session-segmentation / lap-extraction engine described by
the specification.  The capture, settings and configuration code is embedded
below directly from the Python source.  The segmentation engine
(`SessionManager._processFile` / `_sortData`) is not present in the source
snapshot, so those definitions are modelled from the specification, each
marked `Modelled from the spec:` in its doc comment.

Conventions: Python floats are modelled as rationals (`ℚ`), the unsigned
32-bit device timestamp as `Nat` (the overflow fix adds `max+1` without any
wrap, exactly as the engine works on widened integers), Python `None` as an
explicit constructor, and raised exceptions as explicit error results.
-/

namespace ForzaAnalyse

/-- Modelled from the spec (§3 Data Model): one telemetry sample.  The seven
required fields are carried explicitly; the ~80 other telemetry fields that
are passed through opaquely are collapsed into the single opaque `payload`
tag, which also serves as the identity of a sample when reasoning about
order. -/
structure Sample where
  timestamp_ms : Nat
  car_ordinal : Int
  track_ordinal : Int
  dist_traveled : ℚ
  lap_no : Int
  last_lap_time : ℚ
  cur_lap_time : ℚ
  payload : Nat
  deriving DecidableEq, Repr

/-- Modelled from the spec (§4.2): the comparison used by the stable sort on
`timestamp_ms`. -/
def tsLE (a b : Sample) : Bool :=
  decide (a.timestamp_ms ≤ b.timestamp_ms)

/-- Modelled from the spec (§4.2): the stable sort by `timestamp_ms`
ascending performed by the chronological reordering step. -/
def sortByTs (l : List Sample) : List Sample :=
  l.mergeSort tsLE

/-- Modelled from the spec (§4.2): the fixed overflow-detection threshold,
3,600,000 ms (one hour of device time). -/
def overflowThreshold : Nat := 3600000

/-- Modelled from the spec (§4.2): scan adjacent pairs of timestamps for a
gap exceeding the threshold; the returned index `k` is the position of the
second element of the first such pair. -/
def findGapAux : Nat → List Nat → Option Nat
  | _, [] => none
  | _, [_] => none
  | i, a :: b :: rest =>
    if overflowThreshold < b - a then some (i + 1)
    else findGapAux (i + 1) (b :: rest)

/-- Modelled from the spec (§4.2): gap scan over a batch in sorted order. -/
def findGap (l : List Sample) : Option Nat :=
  findGapAux 0 (l.map Sample.timestamp_ms)

/-- Modelled from the spec (§4.2): the maximum of the `timestamp_ms` column
(`max(timestamp_ms)`), 0 for an empty batch. -/
def maxTs (l : List Sample) : Nat :=
  l.foldr (fun s m => Nat.max s.timestamp_ms m) 0

/-- Modelled from the spec (§4.2): add `n` to a sample's timestamp. -/
def bumpTs (n : Nat) (s : Sample) : Sample :=
  { s with timestamp_ms := s.timestamp_ms + n }

/-- Modelled from the spec (§4.2): chronological reordering.  Stable sort by
`timestamp_ms`; if an adjacent gap exceeding the threshold is found at index
`k`, add `max(timestamp_ms) + 1` to every sample at indices `[0, k)` and
re-sort (again stably).  Only a single overflow event is corrected per
batch. -/
def reorder (l : List Sample) : List Sample :=
  let s := sortByTs l
  match findGap s with
  | none => s
  | some k => sortByTs ((s.take k).map (bumpTs (maxTs s + 1)) ++ s.drop k)

/-! ### Basic facts about the sort -/

theorem tsLE_trans : ∀ a b c : Sample, tsLE a b → tsLE b c → tsLE a c := by
  intro a b c hab hbc
  simp only [tsLE, decide_eq_true_eq] at *
  omega

theorem tsLE_total : ∀ a b : Sample, tsLE a b || tsLE b a := by
  intro a b
  simp only [tsLE, Bool.or_eq_true, decide_eq_true_eq]
  omega

theorem sortByTs_sorted (l : List Sample) :
    (sortByTs l).Pairwise (fun a b => a.timestamp_ms ≤ b.timestamp_ms) := by
  have h := List.sorted_mergeSort tsLE_trans tsLE_total l
  exact h.imp (by intro a b h; simpa [tsLE] using h)

theorem sortByTs_perm (l : List Sample) : List.Perm (sortByTs l) l :=
  List.mergeSort_perm l tsLE

/-- Stability of the sort, in fiber form: the subsequence of samples carrying
any fixed timestamp is exactly the original subsequence. -/
theorem sortByTs_filter (l : List Sample) (t : Nat) :
    (sortByTs l).filter (fun s => s.timestamp_ms == t)
      = l.filter (fun s => s.timestamp_ms == t) := by
  set p : Sample → Bool := fun s => s.timestamp_ms == t with hp
  have hpair : (l.filter p).Pairwise (fun a b => tsLE a b = true) := by
    have hall : ∀ a ∈ l.filter p, a.timestamp_ms = t := by
      intro a ha
      have := List.of_mem_filter ha
      simpa [hp] using this
    have : ∀ a ∈ l.filter p, ∀ b ∈ l.filter p, tsLE a b = true := by
      intro a ha b hb
      simp [tsLE, hall a ha, hall b hb]
    exact List.pairwise_of_forall_mem_list this
  have hsub : List.Sublist (l.filter p) (sortByTs l) :=
    List.sublist_mergeSort tsLE_trans tsLE_total hpair (List.filter_sublist l)
  have hsub2 : List.Sublist (l.filter p) ((sortByTs l).filter p) := by
    have h1 := hsub.filter p
    have h2 : (l.filter p).filter p = l.filter p := by
      apply List.filter_eq_self.mpr
      intro a ha
      exact List.of_mem_filter ha
    rwa [h2] at h1
  have hlen : ((sortByTs l).filter p).length = (l.filter p).length :=
    ((sortByTs_perm l).filter p).length_eq
  exact (hsub2.eq_of_length hlen.symm).symm

/-- Two lists that are sorted by timestamp and have identical timestamp
fibers are equal. -/
theorem sorted_ext : ∀ {s t : List Sample},
    s.Pairwise (fun a b => a.timestamp_ms ≤ b.timestamp_ms) →
    t.Pairwise (fun a b => a.timestamp_ms ≤ b.timestamp_ms) →
    (∀ k : Nat, s.filter (fun x => x.timestamp_ms == k)
      = t.filter (fun x => x.timestamp_ms == k)) →
    s = t
  | [], [], _, _, _ => rfl
  | [], b :: t', _, _, hfib => by
    have := hfib b.timestamp_ms
    simp at this
  | a :: s', [], _, _, hfib => by
    have := hfib a.timestamp_ms
    simp at this
  | a :: s', b :: t', hs, ht, hfib => by
    have hamem : a ∈ (b :: t').filter (fun x => x.timestamp_ms == a.timestamp_ms) := by
      rw [← hfib]
      simp
    have hbmem : b ∈ (a :: s').filter (fun x => x.timestamp_ms == b.timestamp_ms) := by
      rw [hfib]
      simp
    have h1 : b.timestamp_ms ≤ a.timestamp_ms := by
      have ha' : a ∈ b :: t' := List.mem_of_mem_filter hamem
      rcases List.mem_cons.mp ha' with h | h
      · exact Nat.le_of_eq (congrArg Sample.timestamp_ms h.symm)
      · exact List.rel_of_pairwise_cons ht h
    have h2 : a.timestamp_ms ≤ b.timestamp_ms := by
      have hb' : b ∈ a :: s' := List.mem_of_mem_filter hbmem
      rcases List.mem_cons.mp hb' with h | h
      · exact Nat.le_of_eq (congrArg Sample.timestamp_ms h.symm)
      · exact List.rel_of_pairwise_cons hs h
    have hts : a.timestamp_ms = b.timestamp_ms := Nat.le_antisymm h2 h1
    have hcons := hfib a.timestamp_ms
    rw [List.filter_cons, List.filter_cons] at hcons
    simp only [beq_self_eq_true, if_pos, hts.symm] at hcons
    have hab : a = b := by
      simpa using congrArg List.head? hcons
    have htail : s'.filter (fun x => x.timestamp_ms == a.timestamp_ms)
        = t'.filter (fun x => x.timestamp_ms == a.timestamp_ms) := by
      simpa using congrArg List.tail hcons
    have hfib' : ∀ k : Nat, s'.filter (fun x => x.timestamp_ms == k)
        = t'.filter (fun x => x.timestamp_ms == k) := by
      intro k
      by_cases hk : a.timestamp_ms = k
      · rw [← hk]
        exact htail
      · have := hfib k
        rw [List.filter_cons, List.filter_cons] at this
        have hka : (a.timestamp_ms == k) = false := by
          simpa using hk
        have hkb : (b.timestamp_ms == k) = false := by
          rw [← hts]
          simpa using hk
        simpa [hka, hkb] using this
    exact hab ▸ congrArg (a :: ·) (sorted_ext hs.tail ht.tail hfib')

/-- If the input is already sorted by timestamp, the stable sort leaves it
unchanged. -/
theorem sortByTs_of_sorted {l : List Sample}
    (h : l.Pairwise (fun a b => a.timestamp_ms ≤ b.timestamp_ms)) :
    sortByTs l = l :=
  List.mergeSort_of_sorted (h.imp (by intro a b hab; simpa [tsLE] using hab))

theorem le_maxTs {l : List Sample} {s : Sample} (h : s ∈ l) :
    s.timestamp_ms ≤ maxTs l := by
  induction l with
  | nil => cases h
  | cons a rest ih =>
    rcases List.mem_cons.mp h with rfl | h'
    · exact Nat.le_max_left _ _
    · exact Nat.le_trans (ih h') (Nat.le_max_right _ _)

/-- Sorting a concatenation whose right block lies strictly below the left
block in timestamp swaps the blocks: all of `Q` (strictly smaller
timestamps) comes first, then all of `P`, each in original order. -/
theorem sortByTs_append_of_lt (P Q : List Sample)
    (hP : P.Pairwise (fun a b => a.timestamp_ms ≤ b.timestamp_ms))
    (hQ : Q.Pairwise (fun a b => a.timestamp_ms ≤ b.timestamp_ms))
    (hsep : ∀ q ∈ Q, ∀ p ∈ P, q.timestamp_ms < p.timestamp_ms) :
    sortByTs (P ++ Q) = Q ++ P := by
  apply sorted_ext (sortByTs_sorted (P ++ Q))
  · exact List.pairwise_append.mpr
      ⟨hQ, hP, fun q hq p hp => Nat.le_of_lt (hsep q hq p hp)⟩
  · intro k
    rw [sortByTs_filter, List.filter_append, List.filter_append]
    by_cases hPf : P.filter (fun x => x.timestamp_ms == k) = []
    · rw [hPf, List.nil_append, List.append_nil]
    · have hQf : Q.filter (fun x => x.timestamp_ms == k) = [] := by
        obtain ⟨p, hpmem⟩ := List.exists_mem_of_ne_nil _ hPf
        have hpP : p ∈ P := List.mem_of_mem_filter hpmem
        have hpk : p.timestamp_ms = k := by
          simpa using List.of_mem_filter hpmem
        apply List.filter_eq_nil_iff.mpr
        intro q hq
        have h3 := hsep q hq p hpP
        simp only [beq_iff_eq]
        omega
      rw [hQf, List.nil_append, List.append_nil]

theorem findGapAux_concat (ps' : List Nat) (p : Nat) :
    ∀ (qs' : List Nat) (q i : Nat),
    List.Chain' (fun a b => b - a ≤ overflowThreshold) (q :: qs') →
    (∀ x ∈ q :: qs', x + overflowThreshold < p) →
    findGapAux i (q :: qs' ++ p :: ps') = some (i + (q :: qs').length)
  | [], q, i, _, hb => by
    have : overflowThreshold < p - q := by
      have := hb q (List.mem_cons_self q [])
      omega
    simp [findGapAux, this]
  | q' :: rest, q, i, hc, hb => by
    have hqq' : q' - q ≤ overflowThreshold := (List.chain'_cons.mp hc).1
    have hrec := findGapAux_concat ps' p rest q' (i + 1) (List.chain'_cons.mp hc).2
      (fun x hx => hb x (List.mem_cons_of_mem q hx))
    have hcond : ¬ (overflowThreshold < q' - q) := by omega
    rw [List.cons_append] at hrec
    show findGapAux i (q :: q' :: (rest ++ p :: ps')) = some (i + (q :: q' :: rest).length)
    rw [findGapAux, if_neg hcond, hrec]
    simp only [List.length_cons]
    congr 1
    omega

theorem findGap_append (Q P : List Sample) (hQne : Q ≠ []) (hPne : P ≠ [])
    (hQgap : List.Chain'
      (fun a b => b.timestamp_ms - a.timestamp_ms ≤ overflowThreshold) Q)
    (hsep : ∀ q ∈ Q, ∀ p ∈ P,
      q.timestamp_ms + overflowThreshold < p.timestamp_ms) :
    findGap (Q ++ P) = some Q.length := by
  obtain ⟨q0, Q', rfl⟩ := List.exists_cons_of_ne_nil hQne
  obtain ⟨p0, P', rfl⟩ := List.exists_cons_of_ne_nil hPne
  unfold findGap
  rw [List.map_append]
  simp only [List.map_cons]
  have hchain : List.Chain' (fun a b => b - a ≤ overflowThreshold)
      (q0.timestamp_ms :: Q'.map Sample.timestamp_ms) := by
    rw [← List.map_cons]
    exact (List.chain'_map Sample.timestamp_ms).mpr hQgap
  have hb : ∀ x ∈ q0.timestamp_ms :: Q'.map Sample.timestamp_ms,
      x + overflowThreshold < p0.timestamp_ms := by
    intro x hx
    rw [← List.map_cons] at hx
    obtain ⟨q, hq, rfl⟩ := List.mem_map.mp hx
    exact hsep q hq p0 (List.mem_cons_self p0 P')
  have h := findGapAux_concat (P'.map Sample.timestamp_ms) p0.timestamp_ms
    (Q'.map Sample.timestamp_ms) q0.timestamp_ms 0 hchain hb
  simpa using h

theorem foldr_max_init (l : List Sample) (c : Nat) :
    l.foldr (fun s m => Nat.max s.timestamp_ms m) c = Nat.max (maxTs l) c := by
  induction l with
  | nil => simp [maxTs]
  | cons a rest ih =>
    simp only [List.foldr_cons, ih, maxTs]
    exact (Nat.max_assoc _ _ _).symm

theorem maxTs_append (l₁ l₂ : List Sample) :
    maxTs (l₁ ++ l₂) = Nat.max (maxTs l₁) (maxTs l₂) := by
  have h : maxTs (l₁ ++ l₂)
      = (l₁ ++ l₂).foldr (fun s m => Nat.max s.timestamp_ms m) 0 := rfl
  rw [h, List.foldr_append]
  have h2 : l₂.foldr (fun s m => Nat.max s.timestamp_ms m) 0 = maxTs l₂ := rfl
  rw [h2, foldr_max_init]

/-! ### Segmentation engine -/

/-- Modelled from the spec (§4.3 Session tagging): walk samples in order,
maintaining `currentSessionNumber` and `prevCarOrdinal` (a sentinel, `none`,
before the first sample); on every change of `car_ordinal` increment the
session number and remember the new ordinal; assign the current session
number to each sample. -/
def tagSessionsGo (cur : Int) (prev : Option Int) :
    List Sample → List (Sample × Int)
  | [] => []
  | s :: rest =>
    if some s.car_ordinal ≠ prev then
      (s, cur + 1) :: tagSessionsGo (cur + 1) (some s.car_ordinal) rest
    else
      (s, cur) :: tagSessionsGo cur prev rest

/-- Modelled from the spec (§4.3): session tagging of a time-ordered batch,
with `currentSessionNumber` initialised to `priorSessionCount - 1`. -/
def tagSessions (priorSessionCount : Int) (l : List Sample) :
    List (Sample × Int) :=
  tagSessionsGo (priorSessionCount - 1) none l

/-- The same walk restricted to the car-ordinal column; used to reason about
the assigned session numbers. -/
def sessIds (cur : Int) (prev : Option Int) : List Int → List Int
  | [] => []
  | c :: rest =>
    if some c ≠ prev then (cur + 1) :: sessIds (cur + 1) (some c) rest
    else cur :: sessIds cur prev rest

/-- Number of car-ordinal change events relative to a previous ordinal
(`none` = sentinel, matched by no ordinal). -/
def changes (prev : Option Int) : List Int → Nat
  | [] => 0
  | c :: rest => (if some c ≠ prev then 1 else 0) + changes (some c) rest

/-- Number of maximal runs of constant value in a list: every maximal run
starts at an index whose value differs from its predecessor (the first index
always does). -/
def runsCount (l : List Int) : Nat := changes none l

/-- Modelled from the spec (§4.3 Restart tagging): walk samples of a
session-tagged batch in order, maintaining `currentRestartNo` (reset to `-1`
whenever `session_no` changes) and `prevDistanceWasPositive` (initialised
`true`).  A transition from non-negative to negative `dist_traveled`
increments the restart number; each sample is assigned the current restart
number. -/
def tagRestartsGo (cur : Int) (prevPos : Bool) (prevSess : Option Int) :
    List (Sample × Int) → List (Sample × Int × Int)
  | [] => []
  | (s, sn) :: rest =>
    let cur1 := if some sn ≠ prevSess then -1 else cur
    let cur2 := if prevPos ∧ s.dist_traveled < 0 then cur1 + 1 else cur1
    (s, sn, cur2) ::
      tagRestartsGo cur2 (decide (0 ≤ s.dist_traveled)) (some sn) rest

/-- Modelled from the spec (§4.3): restart tagging of a session-tagged
batch. -/
def tagRestarts (l : List (Sample × Int)) : List (Sample × Int × Int) :=
  tagRestartsGo (-1) true none l

/-- Modelled from the spec (§4.3 Lap-distance derivation): Python's `%` on
a positive modulus, `q - L * ⌊q / L⌋`. -/
def ratMod (q L : ℚ) : ℚ := q - L * ⌊q / L⌋

/-- Modelled from the spec (§4.3): `cur_lap_distance = dist_traveled mod
lapLength` when `dist_traveled ≥ 0`, else `0`. -/
def curLapDistance (lapLength : ℚ) (s : Sample) : ℚ :=
  if 0 ≤ s.dist_traveled then ratMod s.dist_traveled lapLength else 0

/-- Modelled from the spec (§4.3 Completed-lap filtering): the tolerance
check — the final `cur_lap_distance` lies within ±5 m of `lapLength`. -/
def withinTol (lapLength cld : ℚ) : Bool :=
  decide (|cld - lapLength| ≤ 5)

/-- A fully annotated sample: the ordered sample together with the derived
`filename`, `session_no`, `restart_no` and `cur_lap_distance` columns
(spec §3 Lifecycle). -/
structure ASample where
  sample : Sample
  filename : String
  session_no : Int
  restart_no : Int
  cur_lap_distance : ℚ
  deriving DecidableEq, Repr

/-- Modelled from the spec (§4.3): the grouping key
`(filename, session_no, restart_no, lap_no)`. -/
def lapKey (a : ASample) : String × Int × Int × Int :=
  (a.filename, a.session_no, a.restart_no, a.sample.lap_no)

/-- The samples of one lap group, in table order. -/
def groupOf (l : List ASample) (g : String × Int × Int × Int) :
    List ASample :=
  l.filter (fun a => decide (lapKey a = g))

/-- The distinct group keys of a table. -/
def groupKeys (l : List ASample) : List (String × Int × Int × Int) :=
  (l.map lapKey).dedup

/-- Modelled from the spec (§4.3 Completed-lap filtering & summary): keep
exactly the groups whose last sample passes the tolerance check; the
summary row takes the last sample's `car_ordinal` and `cur_lap_time`
(renamed `lap_time`). -/
def lapSummary (lapLength : ℚ) (l : List ASample) :
    List ((String × Int × Int × Int) × Int × ℚ) :=
  (groupKeys l).filterMap (fun g =>
    match (groupOf l g).getLast? with
    | none => none
    | some a =>
      if withinTol lapLength a.cur_lap_distance then
        some (g, a.sample.car_ordinal, a.sample.cur_lap_time)
      else none)

/-- Modelled from the spec (§4.2–§4.3): annotate one validated batch —
reorder, tag sessions and restarts, derive `cur_lap_distance`, attach the
filename. -/
def annotateBatch (filename : String) (priorSessionCount : Int)
    (lapLength : ℚ) (l : List Sample) : List ASample :=
  (tagRestarts (tagSessions priorSessionCount (reorder l))).map
    (fun x =>
      { sample := x.1, filename := filename, session_no := x.2.1,
        restart_no := x.2.2,
        cur_lap_distance := curLapDistance lapLength x.1 })

/-! ### Batch merging and the accumulated state -/

/-- Modelled from the spec (§3, §4.3 Merging batches): the single
accumulator owned by the session manager — the accumulated annotated sample
table, the Lap Summary derived from it, and the single track all merged
batches must share. -/
structure AccState where
  samples : List ASample
  summary : List ((String × Int × Int × Int) × Int × ℚ)
  track : Option Int
  deriving DecidableEq, Repr

/-- Modelled from the spec (§7): the validation error taxonomy.  (In this
typed embedding a batch is a list of fully-typed records, so the
`MissingFieldsError` case cannot arise; it is kept for completeness.) -/
inductive MergeError where
  | missingFields (fields : List String)
  | mixedTrack
  | unknownTrack
  | mixedBatchTrack
  deriving DecidableEq, Repr

/-- Modelled from the spec (§4.1): the single constant `track_ordinal` of a
batch, or `none` when the batch mixes tracks (or is empty). -/
def batchTrack : List Sample → Option Int
  | [] => none
  | s :: rest =>
    if rest.all (fun x => x.track_ordinal == s.track_ordinal) then
      some s.track_ordinal
    else none

/-- Modelled from the spec (§3): the external Track Reference Data,
`track_ordinal → lap_length (meters)`. -/
def lookupTrack (ref : List (Int × ℚ)) (t : Int) : Option ℚ :=
  (ref.find? (fun p => p.1 == t)).map Prod.snd

/-- Modelled from the spec (§4.1, §4.3 Merging batches, §7): ingest one
batch into the accumulated state.  All validation happens before any
mutation; on any failure the state is returned untouched together with the
error.  On success the annotated batch is concatenated onto the accumulated
table and the Lap Summary is recomputed in full from the concatenated
table. -/
def mergeBatch (ref : List (Int × ℚ)) (st : AccState) (filename : String)
    (priorSessionCount : Int) (batch : List Sample) :
    AccState × Option MergeError :=
  match batchTrack batch with
  | none => (st, some .mixedTrack)
  | some t =>
    match lookupTrack ref t with
    | none => (st, some .unknownTrack)
    | some L =>
      let doMerge : AccState × Option MergeError :=
        let samples' :=
          st.samples ++ annotateBatch filename priorSessionCount L batch
        ({ samples := samples', summary := lapSummary L samples',
           track := some t }, none)
      match st.track with
      | some t0 => if t = t0 then doMerge else (st, some .mixedBatchTrack)
      | none => doMerge

/-! ### Static configuration (`src/Utility.py`, class `ForzaSettings`) -/

namespace ForzaSettings

/-- Embeds `ForzaSettings.plotAxisTypes` from `src/Utility.py`.  In the Python
source the element written `'filename'` is not followed by a comma, so the
adjacent string literal `'is_race_on'` on the next line is concatenated
with it; the Python list therefore contains the single element
`"filenameis_race_on"` where the two names were intended. -/
def plotAxisTypes : List String := [
  "cur_lap_distance", "session_no", "lap_no", "restart_no",
  "filenameis_race_on", "timestamp_ms",
  "engine_max_rpm", "engine_idle_rpm", "current_engine_rpm",
  "acceleration_x", "acceleration_y", "acceleration_z",
  "velocity_x", "velocity_y", "velocity_z",
  "angular_velocity_x", "angular_velocity_y", "angular_velocity_z",
  "yaw", "pitch", "roll",
  "norm_suspension_travel_FL", "norm_suspension_travel_FR",
  "norm_suspension_travel_RL", "norm_suspension_travel_RR",
  "tire_slip_ratio_FL", "tire_slip_ratio_FR",
  "tire_slip_ratio_RL", "tire_slip_ratio_RR",
  "wheel_rotation_speed_FL", "wheel_rotation_speed_FR",
  "wheel_rotation_speed_RL", "wheel_rotation_speed_RR",
  "wheel_on_rumble_strip_FL", "wheel_on_rumble_strip_FR",
  "wheel_on_rumble_strip_RL", "wheel_on_rumble_strip_RR",
  "wheel_in_puddle_FL", "wheel_in_puddle_FR",
  "wheel_in_puddle_RL", "wheel_in_puddle_RR",
  "surface_rumble_FL", "surface_rumble_FR",
  "surface_rumble_RL", "surface_rumble_RR",
  "tire_slip_angle_FL", "tire_slip_angle_FR",
  "tire_slip_angle_RL", "tire_slip_angle_RR",
  "tire_combined_slip_FL", "tire_combined_slip_FR",
  "tire_combined_slip_RL", "tire_combined_slip_RR",
  "suspension_travel_meters_FL", "suspension_travel_meters_FR",
  "suspension_travel_meters_RL", "suspension_travel_meters_RR",
  "car_ordinal", "car_class", "car_performance_index",
  "drivetrain_type", "num_cylinders",
  "position_x", "position_y", "position_z",
  "speed", "power", "torque",
  "tire_temp_FL", "tire_temp_FR",
  "tire_temp_RL", "tire_temp_RR",
  "boost", "fuel", "dist_traveled",
  "best_lap_time", "last_lap_time",
  "cur_lap_time", "cur_race_time",
  "lap_no", "race_pos",
  "accel", "brake", "clutch", "handbrake",
  "gear", "steer",
  "norm_driving_line", "norm_ai_brake_diff",
  "tire_wear_FL", "tire_wear_FR",
  "tire_wear_RL", "tire_wear_RR",
  "track_ordinal"]

/-- Embeds `ForzaSettings.paramsList` from `src/Utility.py`: all parameters sent by
Forza data out, in order. -/
def paramsList : List String := [
  "is_race_on", "timestamp_ms",
  "engine_max_rpm", "engine_idle_rpm", "current_engine_rpm",
  "acceleration_x", "acceleration_y", "acceleration_z",
  "velocity_x", "velocity_y", "velocity_z",
  "angular_velocity_x", "angular_velocity_y", "angular_velocity_z",
  "yaw", "pitch", "roll",
  "norm_suspension_travel_FL", "norm_suspension_travel_FR",
  "norm_suspension_travel_RL", "norm_suspension_travel_RR",
  "tire_slip_ratio_FL", "tire_slip_ratio_FR",
  "tire_slip_ratio_RL", "tire_slip_ratio_RR",
  "wheel_rotation_speed_FL", "wheel_rotation_speed_FR",
  "wheel_rotation_speed_RL", "wheel_rotation_speed_RR",
  "wheel_on_rumble_strip_FL", "wheel_on_rumble_strip_FR",
  "wheel_on_rumble_strip_RL", "wheel_on_rumble_strip_RR",
  "wheel_in_puddle_FL", "wheel_in_puddle_FR",
  "wheel_in_puddle_RL", "wheel_in_puddle_RR",
  "surface_rumble_FL", "surface_rumble_FR",
  "surface_rumble_RL", "surface_rumble_RR",
  "tire_slip_angle_FL", "tire_slip_angle_FR",
  "tire_slip_angle_RL", "tire_slip_angle_RR",
  "tire_combined_slip_FL", "tire_combined_slip_FR",
  "tire_combined_slip_RL", "tire_combined_slip_RR",
  "suspension_travel_meters_FL", "suspension_travel_meters_FR",
  "suspension_travel_meters_RL", "suspension_travel_meters_RR",
  "car_ordinal", "car_class", "car_performance_index",
  "drivetrain_type", "num_cylinders",
  "position_x", "position_y", "position_z",
  "speed", "power", "torque",
  "tire_temp_FL", "tire_temp_FR",
  "tire_temp_RL", "tire_temp_RR",
  "boost", "fuel", "dist_traveled",
  "best_lap_time", "last_lap_time",
  "cur_lap_time", "cur_race_time",
  "lap_no", "race_pos",
  "accel", "brake", "clutch", "handbrake",
  "gear", "steer",
  "norm_driving_line", "norm_ai_brake_diff",
  "tire_wear_FL", "tire_wear_FR",
  "tire_wear_RL", "tire_wear_RR",
  "track_ordinal"]

end ForzaSettings

/-- The seven required fields of spec §4.1. -/
def requiredFields : List String :=
  ["timestamp_ms", "car_ordinal", "dist_traveled", "last_lap_time",
   "cur_lap_time", "lap_no", "track_ordinal"]

/-! ### Capture persistence (`src/CaptureMode.py`,
class `TelemetryDSVFilePersistence`)

The persistence object is embedded as a record of its Python attributes;
the delimiter only affects on-disk encoding, so files are modelled at the
row level (a row is the list of written cell strings) and the open file as
the list of rows written to it so far.  OS-level write failures (the
`OSError` handler) are not modelled: every modelled write succeeds. -/

/-- A `ForzaDataPacket` (external `fdp` package) as used by `savePacket`:
the three fields the method inspects, plus `row`, standing for
`fdp.to_list(ForzaSettings.paramsList)`. -/
structure FDP where
  is_race_on : Bool
  track_ordinal : Int
  car_ordinal : Int
  row : List String
  deriving DecidableEq, Repr

/-- The mutable attributes of `TelemetryDSVFilePersistence` (plus the
archive of closed files, standing for the files left on disk). -/
structure PersistState where
  active : Bool
  onlySaveRaceOn : Bool
  firstPacketReceived : Bool
  pathSet : Bool
  currentTrackOrdinal : Option Int
  currentCarOrdinal : Option Int
  file : Option (List (List String))
  closedFiles : List (List (List String))
  deriving DecidableEq, Repr

/-- Embeds `TelemetryDSVFilePersistence.__init__`: inactive, only-save-race-on
defaults to `True`, no path, no file. -/
def initPersist : PersistState :=
  { active := false, onlySaveRaceOn := true, firstPacketReceived := false,
    pathSet := false, currentTrackOrdinal := none, currentCarOrdinal := none,
    file := none, closedFiles := [] }

/-- Embeds `setOnlySaveRaceOn`. -/
def pSetOnlySaveRaceOn (b : Bool) (st : PersistState) : PersistState :=
  { st with onlySaveRaceOn := b }

/-- Embeds `setPath` called with a valid directory (the path value itself is not
modelled, only that one has been set). -/
def pSetPath (st : PersistState) : PersistState :=
  { st with pathSet := true }

/-- Embeds `start`: refuses without a path, is a no-op when already active,
otherwise clears the first-packet flag and activates. -/
def pStart (st : PersistState) : PersistState :=
  if st.pathSet = false then st
  else if st.active then st
  else { st with firstPacketReceived := false, active := true }

/-- Embeds `stop`: no-op when inactive; otherwise deactivates and closes the file
(archiving its rows). -/
def pStop (st : PersistState) : PersistState :=
  if st.active = false then st
  else
    let archived :=
      match st.file with
      | some rows => st.closedFiles ++ [rows]
      | none => st.closedFiles
    { st with active := false, file := none, closedFiles := archived }

/-- Embeds `savePacket`: discard when inactive; discard non-race packets when
`_onlySaveRaceOn`; on a car/track change stop and restart; on the first
packet open a new file and write the header row
`ForzaSettings.paramsList`; then append the packet's row. -/
def savePacket (st : PersistState) (fdp : FDP) : PersistState :=
  if st.active = false then st
  else if fdp.is_race_on = false ∧ st.onlySaveRaceOn then st
  else if st.firstPacketReceived ∧
      (some fdp.track_ordinal ≠ st.currentTrackOrdinal ∨
       some fdp.car_ordinal ≠ st.currentCarOrdinal) then
    pStart (pStop st)
  else
    let st1 :=
      if st.firstPacketReceived = false then
        { st with
            file := some [ForzaSettings.paramsList],
            firstPacketReceived := true,
            currentTrackOrdinal := some fdp.track_ordinal,
            currentCarOrdinal := some fdp.car_ordinal }
      else st
    { st1 with file := st1.file.map (fun rows => rows ++ [fdp.row]) }

/-- The states of a `TelemetryDSVFilePersistence` object reachable through
its public interface. -/
inductive ReachablePersist : PersistState → Prop
  | init : ReachablePersist initPersist
  | setOnly (b : Bool) {st} (h : ReachablePersist st) :
      ReachablePersist (pSetOnlySaveRaceOn b st)
  | setPath {st} (h : ReachablePersist st) : ReachablePersist (pSetPath st)
  | start {st} (h : ReachablePersist st) : ReachablePersist (pStart st)
  | stop {st} (h : ReachablePersist st) : ReachablePersist (pStop st)
  | save (fdp : FDP) {st} (h : ReachablePersist st) :
      ReachablePersist (savePacket st fdp)

/-! ### Settings manager (`src/Settings.py`, class `SettingsManager`)

A loaded JSON settings value is a tree of Python values.  `d.get(key)`
returns Python `None` both for an absent key and for a key stored with
value `None`; both are modelled by the explicit `pyNone` constructor, which
is faithful for this code because `SettingsManager` only compares the
result against `None`.  Calling `.get` on (or assigning into) a non-dict
raises; raised exceptions are modelled with `Except`, the error payload
carrying the (possibly partially mutated, because Python mutates nested
dicts in place) root value at the time of the raise. -/

inductive PyValue where
  | pyNone : PyValue
  | pyBool : Bool → PyValue
  | pyInt : Int → PyValue
  | pyStr : String → PyValue
  | pyDict : List (String × PyValue) → PyValue

/-- Python `x == None` for a JSON value (`pyNone` is the only value equal
to `None`). -/
def PyValue.isNone : PyValue → Bool
  | .pyNone => true
  | _ => false

/-- Python `d.get(key)` on a dict's entry list (`pyNone` when absent). -/
def dictGet : List (String × PyValue) → String → PyValue
  | [], _ => .pyNone
  | (k', v) :: rest, k => if k' = k then v else dictGet rest k

/-- Python `d[key] = v` on a dict's entry list: replaces the value of an
existing key in place, otherwise appends the new key at the end (Python
dicts preserve insertion order). -/
def dictSet : List (String × PyValue) → String → PyValue →
    List (String × PyValue)
  | [], k, v => [(k, v)]
  | (k', v') :: rest, k, v =>
    if k' = k then (k, v) :: rest else (k', v') :: dictSet rest k v

/-- Embeds `SettingsManager.get` without the empty-keys guard: walk the keys,
returning the default as soon as a lookup yields `None`.  Raises
(`.error`) when an intermediate value is not a dict. -/
def smGetGo (d : PyValue) (keys : List String) (default : PyValue) :
    Except String PyValue :=
  match keys with
  | [] => .ok d
  | k :: rest =>
    match d with
    | .pyDict es =>
      let d' := dictGet es k
      if d'.isNone then .ok default else smGetGo d' rest default
    | _ => .error "AttributeError"

/-- Embeds `SettingsManager.get`: returns the default when called with no keys. -/
def smGet (settings : PyValue) (keys : List String) (default : PyValue) :
    Except String PyValue :=
  if keys = [] then .ok default else smGetGo settings keys default

/-- Embeds `SettingsManager._updateHelper`: pop the first key; if it was the last,
assign; otherwise create an intermediate dict when the key maps to `None`
(or is absent) and recurse.  On a raise the error carries the partially
mutated root. -/
def updateHelper (value : PyValue) (root : PyValue) (keys : List String) :
    Except PyValue PyValue :=
  match keys with
  | [] => .error root
  | [k] =>
    match root with
    | .pyDict es => .ok (.pyDict (dictSet es k value))
    | _ => .error root
  | k :: rest =>
    match root with
    | .pyDict es =>
      let cur := dictGet es k
      let es1 := if cur.isNone then dictSet es k (.pyDict []) else es
      match updateHelper value (dictGet es1 k) rest with
      | .ok child => .ok (.pyDict (dictSet es1 k child))
      | .error child => .error (.pyDict (dictSet es1 k child))
    | _ => .error root

/-- Embeds `SettingsManager.update`: no-op on an empty key list. -/
def smUpdate (settings value : PyValue) (keys : List String) :
    Except PyValue PyValue :=
  if keys = [] then .ok settings else updateHelper value settings keys

/-- The write/read precondition: every intermediate value that is already
present along the key path is itself a dict (an absent or `None`
intermediate is fine — `update` creates a fresh dict there). -/
def goodPath : PyValue → List String → Bool
  | .pyDict _, [] => true
  | .pyDict _, [_] => true
  | .pyDict es, k :: r :: rest =>
    match dictGet es k with
    | .pyNone => true
    | .pyDict es' => goodPath (.pyDict es') (r :: rest)
    | _ => false
  | _, _ => false

/-! ## Claim theorems -/

/-- C8: `ForzaSettings.plotAxisTypes` contains neither `'filename'` nor
`'is_race_on'` as an element; the missing comma after the string literal
`'filename'` causes Python adjacent-string-literal concatenation, so the
list contains the single element `'filenameis_race_on'` in their place. -/
theorem plotAxisTypes_filename_concatenated :
    "filename" ∉ ForzaSettings.plotAxisTypes ∧
    "is_race_on" ∉ ForzaSettings.plotAxisTypes ∧
    "filenameis_race_on" ∈ ForzaSettings.plotAxisTypes := by
  refine ⟨?_, ?_, ?_⟩ <;> decide

/-- C10: `savePacket` writes nothing and leaves every field of the
persistence object unchanged when the object is not active, and likewise
when the packet's `is_race_on` is false while the only-save-race-on setting
(default `true`) is enabled. -/
theorem savePacket_frame (st : PersistState) (p : FDP) :
    (st.active = false → savePacket st p = st) ∧
    (st.onlySaveRaceOn = true → p.is_race_on = false → savePacket st p = st) ∧
    initPersist.onlySaveRaceOn = true := by
  refine ⟨?_, ?_, rfl⟩
  · intro h
    simp [savePacket, h]
  · intro h1 h2
    by_cases ha : st.active = false
    · simp [savePacket, ha]
    · simp [savePacket, ha, h1, h2]

/-- Witness for C10: the frame conditions at concrete states. -/
theorem savePacket_frame_witness :
    savePacket initPersist ⟨true, 0, 7, ["x"]⟩ = initPersist ∧
    savePacket { initPersist with active := true } ⟨false, 0, 7, ["x"]⟩
      = { initPersist with active := true } :=
  ⟨(savePacket_frame initPersist ⟨true, 0, 7, ["x"]⟩).1 rfl,
   (savePacket_frame { initPersist with active := true }
      ⟨false, 0, 7, ["x"]⟩).2.1 rfl rfl⟩

theorem reorder_sorted (l : List Sample) :
    (reorder l).Pairwise (fun a b => a.timestamp_ms ≤ b.timestamp_ms) := by
  unfold reorder
  cases hg : findGap (sortByTs l) with
  | none => simpa [hg] using sortByTs_sorted l
  | some k =>
    simp only [hg]
    exact sortByTs_sorted _

/-- C3: chronological reordering performs a stable sort of the batch by
`timestamp_ms` ascending — the sorted output's timestamps are
non-decreasing (as is the final output of `reorder`), and the samples
carrying any given timestamp appear in the output exactly in their
original arrival order. -/
theorem reordering_stable (l : List Sample) (t : Nat) :
    (sortByTs l).Pairwise (fun a b => a.timestamp_ms ≤ b.timestamp_ms) ∧
    (reorder l).Pairwise (fun a b => a.timestamp_ms ≤ b.timestamp_ms) ∧
    (sortByTs l).filter (fun s => s.timestamp_ms == t)
      = l.filter (fun s => s.timestamp_ms == t) :=
  ⟨sortByTs_sorted l, reorder_sorted l, sortByTs_filter l t⟩

/-- C7: merging a batch whose (single) track ordinal disagrees with the
already-accumulated track fails with `MixedBatchTrackError` and leaves the
accumulated sample table and Lap Summary byte-for-byte unchanged. -/
theorem merge_mixed_track_atomic (ref : List (Int × ℚ)) (st : AccState)
    (fname : String) (prior : Int) (batch : List Sample) (t0 t1 : Int)
    (h0 : st.track = some t0) (h1 : batchTrack batch = some t1)
    (h2 : lookupTrack ref t1 ≠ none) (h3 : t1 ≠ t0) :
    mergeBatch ref st fname prior batch = (st, some MergeError.mixedBatchTrack) ∧
    (mergeBatch ref st fname prior batch).1.samples = st.samples ∧
    (mergeBatch ref st fname prior batch).1.summary = st.summary := by
  have hmain : mergeBatch ref st fname prior batch
      = (st, some MergeError.mixedBatchTrack) := by
    unfold mergeBatch
    rw [h1]
    cases hL : lookupTrack ref t1 with
    | none => exact absurd hL h2
    | some L =>
      rw [h0]
      simp [h3, hL]
  exact ⟨hmain, by rw [hmain], by rw [hmain]⟩

/-- Witness for C7: a concrete accumulated state on track 1 rejects a
batch on track 2 unchanged. -/
theorem merge_mixed_track_atomic_witness :
    mergeBatch [(1, 1500), (2, 1000)]
      { samples := [], summary := [], track := some 1 } "b.csv" 0
      [{ timestamp_ms := 5, car_ordinal := 3, track_ordinal := 2,
         dist_traveled := 0, lap_no := 0, last_lap_time := 0,
         cur_lap_time := 0, payload := 0 }]
      = ({ samples := [], summary := [], track := some 1 },
         some MergeError.mixedBatchTrack) :=
  (merge_mixed_track_atomic [(1, 1500), (2, 1000)]
    { samples := [], summary := [], track := some 1 } "b.csv" 0
    [{ timestamp_ms := 5, car_ordinal := 3, track_ordinal := 2,
       dist_traveled := 0, lap_no := 0, last_lap_time := 0,
       cur_lap_time := 0, payload := 0 }] 1 2 rfl rfl (by decide)
    (by decide)).1

theorem mem_groupKeys {l : List ASample} {g : String × Int × Int × Int}
    (hne : groupOf l g ≠ []) : g ∈ groupKeys l := by
  obtain ⟨a, ha⟩ := List.exists_mem_of_ne_nil _ hne
  have haL : a ∈ l := List.mem_of_mem_filter ha
  have hk : lapKey a = g := by simpa using List.of_mem_filter ha
  exact List.mem_dedup.mpr (List.mem_map.mpr ⟨a, haL, hk⟩)

/-- C2: a lap group keyed by `(filename, session_no, restart_no, lap_no)`
is classified complete (appears in the Lap Summary) iff its last sample's
`cur_lap_distance` lies within 5 m of `lapLength`; a final value exactly
equal to `lapLength` is complete, one at `lapLength - 5.01` is excluded,
one at `lapLength - 4.99` is included; and `cur_lap_distance` is derived
per sample as `dist_traveled mod lapLength` when `dist_traveled ≥ 0`, else
`0`. -/
theorem lap_completeness (l : List ASample) (L : ℚ)
    (g : String × Int × Int × Int) :
    (g ∈ (lapSummary L l).map Prod.fst ↔
      ∃ a, (groupOf l g).getLast? = some a ∧ |a.cur_lap_distance - L| ≤ 5) ∧
    (∀ s : Sample, curLapDistance L s
      = if 0 ≤ s.dist_traveled then ratMod s.dist_traveled L else 0) ∧
    withinTol L L = true ∧
    withinTol L (L - 5.01) = false ∧
    withinTol L (L - 4.99) = true := by
  refine ⟨⟨?_, ?_⟩, fun s => rfl, ?_, ?_, ?_⟩
  · intro h
    obtain ⟨row, hrow, hfst⟩ := List.mem_map.mp h
    obtain ⟨g', hg', hsome⟩ := List.mem_filterMap.mp hrow
    cases hlast : (groupOf l g').getLast? with
    | none =>
      rw [hlast] at hsome
      simp at hsome
    | some a =>
      rw [hlast] at hsome
      have hsome' : (if withinTol L a.cur_lap_distance = true
          then some (g', a.sample.car_ordinal, a.sample.cur_lap_time)
          else none) = some row := hsome
      by_cases htol : withinTol L a.cur_lap_distance
      · rw [if_pos htol] at hsome'
        have hrow' : row = (g', a.sample.car_ordinal, a.sample.cur_lap_time) :=
          (Option.some_inj.mp hsome').symm
        have hgg : g' = g := by
          rw [hrow'] at hfst
          exact hfst
        subst hgg
        exact ⟨a, hlast, by simpa [withinTol] using htol⟩
      · rw [if_neg htol] at hsome'
        cases hsome'
  · rintro ⟨a, hlast, htol⟩
    apply List.mem_map.mpr
    refine ⟨(g, a.sample.car_ordinal, a.sample.cur_lap_time), ?_, rfl⟩
    apply List.mem_filterMap.mpr
    have hne : groupOf l g ≠ [] := by
      intro h0
      rw [h0] at hlast
      simp at hlast
    refine ⟨g, mem_groupKeys hne, ?_⟩
    rw [hlast]
    show (if withinTol L a.cur_lap_distance = true
        then some (g, a.sample.car_ordinal, a.sample.cur_lap_time)
        else none) = some (g, a.sample.car_ordinal, a.sample.cur_lap_time)
    rw [if_pos (by simpa [withinTol] using htol)]
  · simp [withinTol]
  · simp only [withinTol, decide_eq_false_iff_not, not_le]
    have h : (L - 5.01) - L = -(5.01 : ℚ) := by ring
    rw [h, abs_neg, abs_of_pos (by norm_num : (0:ℚ) < 5.01)]
    norm_num
  · simp only [withinTol, decide_eq_true_eq]
    have h : (L - 4.99) - L = -(4.99 : ℚ) := by ring
    rw [h, abs_neg, abs_of_pos (by norm_num : (0:ℚ) < 4.99)]
    norm_num

/-- The files-have-header invariant of the persistence object: every
archived file and the currently open file start with the header row. -/
def headerOk (st : PersistState) : Prop :=
  (∀ rows ∈ st.closedFiles, rows.head? = some ForzaSettings.paramsList) ∧
  (∀ rows, st.file = some rows → rows.head? = some ForzaSettings.paramsList)

theorem head?_concat {α : Type} {l : List α} {x a : α}
    (h : l.head? = some a) : (l ++ [x]).head? = some a := by
  cases l with
  | nil => cases h
  | cons b t => exact h

theorem headerOk_pStop {st : PersistState} (h : headerOk st) :
    headerOk (pStop st) := by
  unfold pStop
  by_cases h1 : st.active = false
  · simpa [h1] using h
  · rw [if_neg h1]
    cases hf : st.file with
    | none =>
      refine ⟨?_, ?_⟩
      · intro rows hrows
        exact h.1 rows hrows
      · intro rows hrows
        cases hrows
    | some rows0 =>
      refine ⟨?_, ?_⟩
      · intro rows hrows
        rcases List.mem_append.mp hrows with hm | hm
        · exact h.1 rows hm
        · rw [List.mem_singleton.mp hm]
          exact h.2 rows0 hf
      · intro rows hrows
        cases hrows

theorem headerOk_pStart {st : PersistState} (h : headerOk st) :
    headerOk (pStart st) := by
  unfold pStart
  by_cases h1 : st.pathSet = false
  · simpa [h1] using h
  · rw [if_neg h1]
    by_cases h2 : st.active
    · simpa [h2] using h
    · rw [if_neg h2]
      exact ⟨h.1, h.2⟩

theorem headerOk_save {st : PersistState} (fdp : FDP) (h : headerOk st) :
    headerOk (savePacket st fdp) := by
  unfold savePacket
  by_cases h1 : st.active = false
  · simpa [h1] using h
  · rw [if_neg h1]
    by_cases h2 : fdp.is_race_on = false ∧ st.onlySaveRaceOn
    · simpa [h2] using h
    · rw [if_neg h2]
      by_cases h3 : st.firstPacketReceived ∧
          (some fdp.track_ordinal ≠ st.currentTrackOrdinal ∨
           some fdp.car_ordinal ≠ st.currentCarOrdinal)
      · rw [if_pos h3]
        exact headerOk_pStart (headerOk_pStop h)
      · rw [if_neg h3]
        by_cases h4 : st.firstPacketReceived = false
        · rw [if_pos h4]
          refine ⟨h.1, ?_⟩
          intro rows hrows
          simp only [Option.map_some'] at hrows
          rw [← Option.some_inj.mp hrows]
          rfl
        · rw [if_neg h4]
          refine ⟨h.1, ?_⟩
          intro rows hrows
          have hrows' : Option.map (fun r => r ++ [fdp.row]) st.file
              = some rows := hrows
          cases hf : st.file with
          | none =>
            rw [hf] at hrows'
            cases hrows'
          | some rows0 =>
            rw [hf] at hrows'
            simp only [Option.map_some'] at hrows'
            rw [← Option.some_inj.mp hrows']
            exact head?_concat (h.2 rows0 hf)

theorem headerOk_reachable {st : PersistState} (h : ReachablePersist st) :
    headerOk st := by
  induction h with
  | init => exact ⟨by simp [initPersist], by simp [initPersist]⟩
  | setOnly b h ih => exact ⟨ih.1, ih.2⟩
  | setPath h ih => exact ⟨ih.1, ih.2⟩
  | start h ih => exact headerOk_pStart ih
  | stop h ih => exact headerOk_pStop ih
  | save fdp h ih => exact headerOk_save fdp ih

/-- C1: in every reachable state of the capture persistence object, every
telemetry batch file written (the archived files and the open one) starts
with the header row `ForzaSettings.paramsList`, and each of the seven
required field names is an element of that list, so a batch produced by
this subsystem is never missing a required column. -/
theorem capture_files_have_required_header {st : PersistState}
    (h : ReachablePersist st) :
    (∀ rows ∈ st.closedFiles, rows.head? = some ForzaSettings.paramsList) ∧
    (∀ rows, st.file = some rows → rows.head? = some ForzaSettings.paramsList) ∧
    (∀ f ∈ requiredFields, f ∈ ForzaSettings.paramsList) := by
  obtain ⟨h1, h2⟩ := headerOk_reachable h
  exact ⟨h1, h2, by decide⟩

/-- Witness for C1: a concrete run — set a path, start, save one packet,
stop — produces a state whose files all carry the header. -/
theorem capture_files_have_required_header_witness :
    (∀ rows ∈ (pStop (savePacket (pStart (pSetPath initPersist))
        ⟨true, 2, 3, ["r"]⟩)).closedFiles,
      rows.head? = some ForzaSettings.paramsList) ∧
    (∀ rows, (pStop (savePacket (pStart (pSetPath initPersist))
        ⟨true, 2, 3, ["r"]⟩)).file = some rows →
      rows.head? = some ForzaSettings.paramsList) ∧
    (∀ f ∈ requiredFields, f ∈ ForzaSettings.paramsList) :=
  capture_files_have_required_header
    (ReachablePersist.stop (ReachablePersist.save ⟨true, 2, 3, ["r"]⟩
      (ReachablePersist.start (ReachablePersist.setPath ReachablePersist.init))))

theorem tagSessionsGo_fst : ∀ (l : List Sample) (cur : Int) (prev : Option Int),
    (tagSessionsGo cur prev l).map Prod.fst = l
  | [], _, _ => rfl
  | s :: rest, cur, prev => by
    unfold tagSessionsGo
    by_cases h : some s.car_ordinal ≠ prev
    · rw [if_pos h]
      simp [tagSessionsGo_fst rest]
    · rw [if_neg h]
      simp [tagSessionsGo_fst rest]

theorem tagSessionsGo_snd : ∀ (l : List Sample) (cur : Int) (prev : Option Int),
    (tagSessionsGo cur prev l).map Prod.snd
      = sessIds cur prev (l.map Sample.car_ordinal)
  | [], _, _ => rfl
  | s :: rest, cur, prev => by
    simp only [List.map_cons]
    unfold tagSessionsGo sessIds
    by_cases h : some s.car_ordinal ≠ prev
    · rw [if_pos h, if_pos h]
      simp [tagSessionsGo_snd rest]
    · rw [if_neg h, if_neg h]
      simp [tagSessionsGo_snd rest]

theorem chain'_zip_aux : ∀ (cars : List Int) (c id : Int),
    List.Chain' (fun p q : Int × Int => p.2 = q.2 ↔ p.1 = q.1)
      ((c :: cars).zip (id :: sessIds id (some c) cars))
  | [], c, id => by simp [sessIds]
  | c' :: rest, c, id => by
    by_cases h : c' = c
    · subst h
      have hs : sessIds id (some c') (c' :: rest)
          = id :: sessIds id (some c') rest := by
        simp [sessIds]
      rw [hs, List.zip_cons_cons, List.zip_cons_cons, List.chain'_cons]
      refine ⟨by simp, ?_⟩
      rw [← List.zip_cons_cons]
      exact chain'_zip_aux rest c' id
    · have hs : sessIds id (some c) (c' :: rest)
          = (id + 1) :: sessIds (id + 1) (some c') rest := by
        simp [sessIds, h]
      rw [hs, List.zip_cons_cons, List.zip_cons_cons, List.chain'_cons]
      refine ⟨?_, ?_⟩
      · constructor
        · intro habs
          exact absurd habs (by omega)
        · intro habs
          exact absurd habs.symm h
      · rw [← List.zip_cons_cons]
        exact chain'_zip_aux rest c' (id + 1)

theorem destutter'_sessIds : ∀ (cars : List Int) (c id : Int),
    List.destutter' (fun a b : Int => a ≠ b) id (sessIds id (some c) cars)
      = id :: (List.range (changes (some c) cars)).map
          (fun i : Nat => id + 1 + (i : Int))
  | [], c, id => by simp [sessIds, changes, List.destutter'_nil]
  | c' :: rest, c, id => by
    by_cases h : c' = c
    · subst h
      have hs : sessIds id (some c') (c' :: rest)
          = id :: sessIds id (some c') rest := by
        simp [sessIds]
      rw [hs, List.destutter'_cons_neg _ (by simp), destutter'_sessIds rest c' id]
      have hch : changes (some c') (c' :: rest) = changes (some c') rest := by
        simp [changes]
      rw [hch]
    · have hs : sessIds id (some c) (c' :: rest)
          = (id + 1) :: sessIds (id + 1) (some c') rest := by
        simp [sessIds, h]
      have hne : (fun a b : Int => a ≠ b) id (id + 1) := by
        simp only [ne_eq]
        omega
      rw [hs, List.destutter'_cons_pos _ hne, destutter'_sessIds rest c' (id + 1)]
      have hch : changes (some c) (c' :: rest) = changes (some c') rest + 1 := by
        simp [changes, h]
        omega
      rw [hch, List.range_succ_eq_map, List.map_cons, List.map_map]
      norm_num
      intro a ha
      ring

theorem destutter_sessIds_top (prior : Int) (cars : List Int) :
    List.destutter (fun a b : Int => a ≠ b) (sessIds (prior - 1) none cars)
      = (List.range (runsCount cars)).map (fun i : Nat => prior + (i : Int)) := by
  cases cars with
  | nil => simp [sessIds, runsCount, changes]
  | cons c rest =>
    have hs : sessIds (prior - 1) none (c :: rest)
        = (prior - 1 + 1) :: sessIds (prior - 1 + 1) (some c) rest := by
      simp [sessIds]
    have hp : prior - 1 + 1 = prior := by ring
    rw [hs, hp, List.destutter_cons', destutter'_sessIds]
    have hrc : runsCount (c :: rest) = changes (some c) rest + 1 := by
      simp [runsCount, changes]
      omega
    rw [hrc, List.range_succ_eq_map, List.map_cons, List.map_map]
    norm_num
    intro a ha
    ring

theorem mem_destutter'_ne : ∀ (l : List Int) (a x : Int), x ∈ a :: l →
    x ∈ List.destutter' (fun p q : Int => p ≠ q) a l
  | [], a, x, hx => by simpa [List.destutter'_nil] using hx
  | b :: rest, a, x, hx => by
    by_cases h : (fun p q : Int => p ≠ q) a b
    · rw [List.destutter'_cons_pos _ h]
      rcases List.mem_cons.mp hx with rfl | hx'
      · exact List.mem_cons_self _ _
      · exact List.mem_cons_of_mem _ (mem_destutter'_ne rest b x hx')
    · rw [List.destutter'_cons_neg _ h]
      have hab : a = b := by
        simpa using h
      apply mem_destutter'_ne rest a x
      rcases List.mem_cons.mp hx with rfl | hx'
      · exact List.mem_cons_self _ _
      · rcases List.mem_cons.mp hx' with rfl | hx''
        · rw [hab]
          exact List.mem_cons_self _ _
        · exact List.mem_cons_of_mem _ hx''

/-- C5: after session tagging with prior session count `prior`, the samples
are preserved in order; adjacent samples get equal session numbers exactly
when their car ordinals agree (so every maximal run of one car ordinal gets
exactly one session id); the distinct session numbers, in order, are
consecutive starting at `prior`; and their count equals the number of
maximal runs of constant `car_ordinal`. -/
theorem session_numbering (prior : Int) (l : List Sample) :
    ((tagSessions prior l).map Prod.fst = l) ∧
    List.Chain' (fun p q : Int × Int => p.2 = q.2 ↔ p.1 = q.1)
      ((l.map Sample.car_ordinal).zip ((tagSessions prior l).map Prod.snd)) ∧
    List.destutter (fun a b : Int => a ≠ b)
        ((tagSessions prior l).map Prod.snd)
      = (List.range (runsCount (l.map Sample.car_ordinal))).map
          (fun i : Nat => prior + (i : Int)) ∧
    ((tagSessions prior l).map Prod.snd).toFinset.card
      = runsCount (l.map Sample.car_ordinal) := by
  have hsnd := tagSessionsGo_snd l (prior - 1) none
  have hdes := destutter_sessIds_top prior (l.map Sample.car_ordinal)
  refine ⟨tagSessionsGo_fst l _ _, ?_, ?_, ?_⟩
  · rw [tagSessions, hsnd]
    cases hc : l.map Sample.car_ordinal with
    | nil => simp [sessIds]
    | cons c rest =>
      have hs : sessIds (prior - 1) none (c :: rest)
          = (prior - 1 + 1) :: sessIds (prior - 1 + 1) (some c) rest := by
        simp [sessIds]
      rw [hs]
      exact chain'_zip_aux rest c (prior - 1 + 1)
  · rw [tagSessions, hsnd]
    exact hdes
  · rw [tagSessions, hsnd]
    set S := sessIds (prior - 1) none (l.map Sample.car_ordinal) with hS
    have hsubset : ∀ x ∈ S, x ∈ List.destutter (fun a b : Int => a ≠ b) S := by
      intro x hx
      cases hSc : S with
      | nil => rw [hSc] at hx; cases hx
      | cons a rest =>
        rw [List.destutter_cons']
        rw [hSc] at hx
        exact mem_destutter'_ne rest a x hx
    have hsup : ∀ x ∈ List.destutter (fun a b : Int => a ≠ b) S, x ∈ S :=
      fun x hx => (List.destutter_sublist (fun a b : Int => a ≠ b) S).subset hx
    have hfs : S.toFinset = (List.destutter (fun a b : Int => a ≠ b) S).toFinset := by
      ext x
      simp only [List.mem_toFinset]
      exact ⟨hsubset x, hsup x⟩
    rw [hfs, hdes]
    have hinj : Function.Injective (fun i : Nat => prior + (i : Int)) := by
      intro i j hij
      simp only at hij
      omega
    have hnd : ((List.range (runsCount (l.map Sample.car_ordinal))).map
        (fun i : Nat => prior + (i : Int))).Nodup :=
      (List.nodup_range _).map hinj
    rw [List.toFinset_card_of_nodup hnd, List.length_map, List.length_range]

/-- The step relation satisfied by adjacent samples of a restart-tagged
batch: within a session the restart number increments exactly on a
non-negative-to-negative `dist_traveled` transition (and is otherwise
unchanged); at a session boundary it restarts at `0` on such a transition
and at the `-1` sentinel otherwise. -/
def restartStep (x y : Sample × Int × Int) : Prop :=
  (x.2.1 = y.2.1 →
    (y.2.2 ≠ x.2.2 ↔ (0 ≤ x.1.dist_traveled ∧ y.1.dist_traveled < 0)) ∧
    (y.2.2 ≠ x.2.2 → y.2.2 = x.2.2 + 1)) ∧
  (x.2.1 ≠ y.2.1 →
    y.2.2 = if 0 ≤ x.1.dist_traveled ∧ y.1.dist_traveled < 0 then 0 else -1)

theorem tagRestartsGo_unfold (s' : Sample) (sn' : Int)
    (rest : List (Sample × Int)) (r : Int) (s : Sample) (sn : Int) :
    tagRestartsGo r (decide (0 ≤ s.dist_traveled)) (some sn)
        ((s', sn') :: rest)
      = (s', sn',
          (if 0 ≤ s.dist_traveled ∧ s'.dist_traveled < 0 then
            (if some sn' ≠ some sn then (-1 : Int) else r) + 1
          else (if some sn' ≠ some sn then (-1 : Int) else r))) ::
        tagRestartsGo
          (if 0 ≤ s.dist_traveled ∧ s'.dist_traveled < 0 then
            (if some sn' ≠ some sn then (-1 : Int) else r) + 1
          else (if some sn' ≠ some sn then (-1 : Int) else r))
          (decide (0 ≤ s'.dist_traveled)) (some sn') rest := by
  simp only [tagRestartsGo, decide_eq_true_eq]

theorem tagRestartsGo_chain : ∀ (rest : List (Sample × Int)) (s : Sample)
    (sn r : Int),
    List.Chain' restartStep
      ((s, sn, r) ::
        tagRestartsGo r (decide (0 ≤ s.dist_traveled)) (some sn) rest)
  | [], _, _, _ => by simp [tagRestartsGo]
  | (s', sn') :: rest, s, sn, r => by
    rw [tagRestartsGo_unfold, List.chain'_cons]
    constructor
    · constructor
      · intro hsn
        have hsn2 : sn' = sn := by
          have h0 : sn = sn' := hsn
          exact h0.symm
        have hc1 : (if some sn' ≠ some sn then (-1 : Int) else r) = r := by
          simp [hsn2]
        rw [hc1]
        by_cases ht : 0 ≤ s.dist_traveled ∧ s'.dist_traveled < 0
        · rw [if_pos ht]
          refine ⟨⟨fun _ => ht, fun _ => ?_⟩, fun _ => rfl⟩
          intro hh
          have hh' : r + 1 = r := hh
          omega
        · rw [if_neg ht]
          exact ⟨⟨fun hne => absurd rfl hne, fun hc => absurd hc ht⟩,
            fun hne => absurd rfl hne⟩
      · intro hsn
        have hc1 : (if some sn' ≠ some sn then (-1 : Int) else r) = -1 := by
          simp only [ne_eq, Option.some_inj]
          rw [if_pos (fun h => hsn h.symm)]
        rw [hc1]
        by_cases ht : 0 ≤ s.dist_traveled ∧ s'.dist_traveled < 0
        · rw [if_pos ht, if_pos ht]
          show (-1 : Int) + 1 = 0
          norm_num
        · rw [if_neg ht, if_neg ht]
    · exact tagRestartsGo_chain rest s' sn' _

theorem tagRestartsGo_proj : ∀ (l : List (Sample × Int)) (cur : Int)
    (pos : Bool) (prev : Option Int),
    (tagRestartsGo cur pos prev l).map (fun x => (x.1, x.2.1)) = l
  | [], _, _, _ => rfl
  | (s, sn) :: rest, cur, pos, prev => by
    simp only [tagRestartsGo, List.map_cons]
    rw [tagRestartsGo_proj rest]

/-- C6: after restart tagging of a session-tagged batch, the samples and
their session numbers are preserved in order; the first sample's restart
number is `0` if its distance is negative and the `-1` sentinel otherwise
(the previous-distance flag starts true); and along the batch the restart
number changes within a session exactly at a non-negative-to-negative
`dist_traveled` transition (by an increment), being reset through the `-1`
sentinel exactly when the session number changes. -/
theorem restart_transitions (l : List (Sample × Int)) :
    ((tagRestarts l).map (fun x => (x.1, x.2.1)) = l) ∧
    List.Chain' restartStep (tagRestarts l) ∧
    (∀ x : Sample × Int × Int, (tagRestarts l).head? = some x →
      x.2.2 = if x.1.dist_traveled < 0 then 0 else -1) := by
  refine ⟨tagRestartsGo_proj l _ _ _, ?_, ?_⟩
  · cases l with
    | nil => simp [tagRestarts, tagRestartsGo]
    | cons hd rest =>
      obtain ⟨s, sn⟩ := hd
      have hunf : tagRestarts ((s, sn) :: rest)
          = (s, sn, (if s.dist_traveled < 0 then (0 : Int) else -1)) ::
            tagRestartsGo (if s.dist_traveled < 0 then (0 : Int) else -1)
              (decide (0 ≤ s.dist_traveled)) (some sn) rest := by
        by_cases hd : s.dist_traveled < 0 <;>
          simp [tagRestarts, tagRestartsGo, hd]
      rw [hunf]
      exact tagRestartsGo_chain rest s sn _
  · cases l with
    | nil => intro x hx; simp [tagRestarts, tagRestartsGo] at hx
    | cons hd rest =>
      obtain ⟨s, sn⟩ := hd
      intro x hx
      have hunf : tagRestarts ((s, sn) :: rest)
          = (s, sn, (if s.dist_traveled < 0 then (0 : Int) else -1)) ::
            tagRestartsGo (if s.dist_traveled < 0 then (0 : Int) else -1)
              (decide (0 ≤ s.dist_traveled)) (some sn) rest := by
        by_cases hd : s.dist_traveled < 0 <;>
          simp [tagRestarts, tagRestartsGo, hd]
      rw [hunf] at hx
      simp only [List.head?_cons, Option.some_inj] at hx
      rw [← hx]

theorem dictGet_dictSet_self : ∀ (es : List (String × PyValue)) (k : String)
    (v : PyValue), dictGet (dictSet es k v) k = v
  | [], k, v => by simp [dictGet, dictSet]
  | (k', v') :: rest, k, v => by
    by_cases h : k' = k
    · simp [dictGet, dictSet, h]
    · simp [dictGet, dictSet, h, dictGet_dictSet_self rest k v]

theorem goodPath_emptyDict : ∀ keys : List String,
    goodPath (.pyDict []) keys = true
  | [] => rfl
  | [_] => rfl
  | _ :: _ :: _ => by simp [goodPath, dictGet]

theorem smGetGo_cons_dict (X : List (String × PyValue)) (k : String)
    (tail : List String) (d : PyValue) :
    smGetGo (.pyDict X) (k :: tail) d
      = (if (dictGet X k).isNone then Except.ok d
         else smGetGo (dictGet X k) tail d) := rfl

theorem updateHelper_cons_cons (v : PyValue) (es : List (String × PyValue))
    (k r : String) (rest : List String) :
    updateHelper v (.pyDict es) (k :: r :: rest)
      = (match updateHelper v
            (dictGet (if (dictGet es k).isNone then dictSet es k (.pyDict [])
              else es) k) (r :: rest) with
         | Except.ok child =>
            Except.ok (.pyDict (dictSet
              (if (dictGet es k).isNone then dictSet es k (.pyDict []) else es)
              k child))
         | Except.error child =>
            Except.error (.pyDict (dictSet
              (if (dictGet es k).isNone then dictSet es k (.pyDict []) else es)
              k child))) := rfl

theorem updateHelper_roundtrip : ∀ (keys : List String)
    (es : List (String × PyValue)) (v d : PyValue),
    keys ≠ [] → goodPath (.pyDict es) keys = true → v.isNone = false →
    ∃ es2, updateHelper v (.pyDict es) keys = Except.ok (.pyDict es2) ∧
      smGetGo (.pyDict es2) keys d = Except.ok v
  | [], _, _, _, hne, _, _ => absurd rfl hne
  | [k], es, v, d, _, _, hv => by
    refine ⟨dictSet es k v, rfl, ?_⟩
    simp [smGetGo, dictGet_dictSet_self, hv]
  | k :: r :: rest, es, v, d, _, hgp, hv => by
    cases hcur : dictGet es k with
    | pyNone =>
      have hgp2 : goodPath (.pyDict []) (r :: rest) = true :=
        goodPath_emptyDict _
      obtain ⟨es2, hupd, hget⟩ :=
        updateHelper_roundtrip (r :: rest) [] v d (by simp) hgp2 hv
      have hchild : dictGet (dictSet es k (.pyDict [])) k = .pyDict [] :=
        dictGet_dictSet_self es k _
      refine ⟨dictSet (dictSet es k (.pyDict [])) k (.pyDict es2), ?_, ?_⟩
      · rw [updateHelper_cons_cons, hcur]
        simp only [PyValue.isNone, if_true, hchild, hupd]
      · rw [smGetGo_cons_dict, dictGet_dictSet_self]
        simp only [PyValue.isNone, Bool.false_eq_true, if_false]
        exact hget
    | pyDict es' =>
      have hgp2 : goodPath (.pyDict es') (r :: rest) = true := by
        have h0 : goodPath (.pyDict es) (k :: r :: rest)
            = goodPath (.pyDict es') (r :: rest) := by
          simp [goodPath, hcur]
        rw [← h0]
        exact hgp
      obtain ⟨es2, hupd, hget⟩ :=
        updateHelper_roundtrip (r :: rest) es' v d (by simp) hgp2 hv
      refine ⟨dictSet es k (.pyDict es2), ?_, ?_⟩
      · rw [updateHelper_cons_cons, hcur]
        simp only [PyValue.isNone, Bool.false_eq_true, if_false, hcur, hupd]
      · rw [smGetGo_cons_dict, dictGet_dictSet_self]
        simp only [PyValue.isNone, Bool.false_eq_true, if_false]
        exact hget
    | pyBool b =>
      rw [show goodPath (.pyDict es) (k :: r :: rest) = false by
        simp [goodPath, hcur]] at hgp
      cases hgp
    | pyInt n =>
      rw [show goodPath (.pyDict es) (k :: r :: rest) = false by
        simp [goodPath, hcur]] at hgp
      cases hgp
    | pyStr s =>
      rw [show goodPath (.pyDict es) (k :: r :: rest) = false by
        simp [goodPath, hcur]] at hgp
      cases hgp

/-- C9: for every loaded settings dictionary, every non-empty key path
along which each already-present intermediate value is a dict, and every
value that is not `None`, `SettingsManager.update` followed by
`SettingsManager.get` over the same keys returns that value. -/
theorem settings_update_get_roundtrip (es : List (String × PyValue))
    (keys : List String) (v default : PyValue)
    (hk : keys ≠ []) (hpath : goodPath (.pyDict es) keys = true)
    (hv : v.isNone = false) :
    ∃ es2, smUpdate (.pyDict es) v keys = Except.ok (.pyDict es2) ∧
      smGet (.pyDict es2) keys default = Except.ok v := by
  obtain ⟨es2, h1, h2⟩ := updateHelper_roundtrip keys es v default hk hpath hv
  exact ⟨es2, by simpa [smUpdate, hk] using h1, by simpa [smGet, hk] using h2⟩

/-- Witness for C9: writing `"YAHOO"` under `recording → mario` in a
settings dict with an existing `recording` sub-dict and reading it back. -/
theorem settings_update_get_roundtrip_witness :
    ∃ es2, smUpdate (.pyDict [("recording", .pyDict [("level", .pyInt 3)])])
        (.pyStr "YAHOO") ["recording", "mario"] = Except.ok (.pyDict es2) ∧
      smGet (.pyDict es2) ["recording", "mario"] .pyNone
        = Except.ok (.pyStr "YAHOO") :=
  settings_update_get_roundtrip [("recording", .pyDict [("level", .pyInt 3)])]
    ["recording", "mario"] (.pyStr "YAHOO") .pyNone (by simp) (by rfl) rfl

/-- C4: overflow correctness of the reordering step.  `P` is the pre-wrap
true-order block (large timestamps) and `Q` the post-wrap block (small
timestamps); the batch arrives in true order `P ++ Q`.  Assuming each block
is internally non-decreasing, `Q` has no internal gap above the threshold,
and the blocks are separated by more than the threshold, the first stable
sort yields `Q ++ P`, the gap is detected exactly at index `k = |Q|`, and
the reordering adds `max(timestamp_ms) + 1` to the samples at indices
`[0, k)` and re-sorts stably, producing a monotonically non-decreasing
sequence whose logical order (the payloads) matches the true recording
order. -/
theorem overflow_reorder_correct (P Q : List Sample)
    (hPne : P ≠ []) (hQne : Q ≠ [])
    (hPs : List.Chain' (fun a b => a.timestamp_ms ≤ b.timestamp_ms) P)
    (hQs : List.Chain' (fun a b => a.timestamp_ms ≤ b.timestamp_ms) Q)
    (hQgap : List.Chain'
      (fun a b => b.timestamp_ms - a.timestamp_ms ≤ overflowThreshold) Q)
    (hsep : ∀ q ∈ Q, ∀ p ∈ P,
      q.timestamp_ms + overflowThreshold < p.timestamp_ms) :
    sortByTs (P ++ Q) = Q ++ P ∧
    findGap (Q ++ P) = some Q.length ∧
    reorder (P ++ Q) = P ++ Q.map (bumpTs (maxTs (P ++ Q) + 1)) ∧
    (reorder (P ++ Q)).Pairwise
      (fun a b => a.timestamp_ms ≤ b.timestamp_ms) ∧
    (reorder (P ++ Q)).map Sample.payload = (P ++ Q).map Sample.payload := by
  haveI : IsTrans Sample (fun a b => a.timestamp_ms ≤ b.timestamp_ms) :=
    ⟨fun a b c h1 h2 => Nat.le_trans h1 h2⟩
  have hPp : P.Pairwise (fun a b => a.timestamp_ms ≤ b.timestamp_ms) :=
    List.chain'_iff_pairwise.mp hPs
  have hQp : Q.Pairwise (fun a b => a.timestamp_ms ≤ b.timestamp_ms) :=
    List.chain'_iff_pairwise.mp hQs
  have hlt : ∀ q ∈ Q, ∀ p ∈ P, q.timestamp_ms < p.timestamp_ms := by
    intro q hq p hp
    have := hsep q hq p hp
    omega
  have h1 : sortByTs (P ++ Q) = Q ++ P := sortByTs_append_of_lt P Q hPp hQp hlt
  have h2 : findGap (Q ++ P) = some Q.length :=
    findGap_append Q P hQne hPne hQgap hsep
  have hmax : maxTs (Q ++ P) = maxTs (P ++ Q) := by
    rw [maxTs_append, maxTs_append]
    exact Nat.max_comm _ _
  have hre : reorder (P ++ Q)
      = sortByTs (Q.map (bumpTs (maxTs (P ++ Q) + 1)) ++ P) := by
    have h0 : reorder (P ++ Q)
        = (match findGap (sortByTs (P ++ Q)) with
           | none => sortByTs (P ++ Q)
           | some k => sortByTs (((sortByTs (P ++ Q)).take k).map
               (bumpTs (maxTs (sortByTs (P ++ Q)) + 1))
               ++ (sortByTs (P ++ Q)).drop k)) := rfl
    rw [h0, h1, h2]
    show sortByTs (((Q ++ P).take Q.length).map
        (bumpTs (maxTs (Q ++ P) + 1)) ++ (Q ++ P).drop Q.length) = _
    rw [List.take_left, List.drop_left, hmax]
  have hQb : (Q.map (bumpTs (maxTs (P ++ Q) + 1))).Pairwise
      (fun a b => a.timestamp_ms ≤ b.timestamp_ms) := by
    rw [List.pairwise_map]
    refine hQp.imp ?_
    intro a b hab
    simp only [bumpTs]
    omega
  have hsep2 : ∀ p ∈ P, ∀ b ∈ Q.map (bumpTs (maxTs (P ++ Q) + 1)),
      p.timestamp_ms < b.timestamp_ms := by
    intro p hp b hb
    obtain ⟨q, hq, rfl⟩ := List.mem_map.mp hb
    have hple : p.timestamp_ms ≤ maxTs (P ++ Q) :=
      le_maxTs (List.mem_append.mpr (Or.inl hp))
    simp only [bumpTs]
    omega
  have h3 : reorder (P ++ Q) = P ++ Q.map (bumpTs (maxTs (P ++ Q) + 1)) := by
    rw [hre]
    exact sortByTs_append_of_lt _ P hQb hPp hsep2
  refine ⟨h1, h2, h3, ?_, ?_⟩
  · rw [hre]
    exact sortByTs_sorted _
  · rw [h3, List.map_append, List.map_append, List.map_map]
    congr 1

/-- Witness sample constructor: only timestamp and payload matter for the
overflow scenario. -/
def wSmpl (ts pl : Nat) : Sample :=
  { timestamp_ms := ts, car_ordinal := 0, track_ordinal := 0,
    dist_traveled := 0, lap_no := 0, last_lap_time := 0, cur_lap_time := 0,
    payload := pl }

/-- Witness for C4: a synthetic batch climbing to near `2^32`, wrapping to
near 0, and climbing again. -/
theorem overflow_reorder_correct_witness :
    sortByTs ([wSmpl 4000000000 1, wSmpl 4000001000 2]
        ++ [wSmpl 100 3, wSmpl 200 4])
      = [wSmpl 100 3, wSmpl 200 4]
        ++ [wSmpl 4000000000 1, wSmpl 4000001000 2] ∧
    findGap ([wSmpl 100 3, wSmpl 200 4]
        ++ [wSmpl 4000000000 1, wSmpl 4000001000 2])
      = some ([wSmpl 100 3, wSmpl 200 4] : List Sample).length ∧
    reorder ([wSmpl 4000000000 1, wSmpl 4000001000 2]
        ++ [wSmpl 100 3, wSmpl 200 4])
      = [wSmpl 4000000000 1, wSmpl 4000001000 2]
        ++ ([wSmpl 100 3, wSmpl 200 4] : List Sample).map
            (bumpTs (maxTs ([wSmpl 4000000000 1, wSmpl 4000001000 2]
              ++ [wSmpl 100 3, wSmpl 200 4]) + 1)) ∧
    (reorder ([wSmpl 4000000000 1, wSmpl 4000001000 2]
        ++ [wSmpl 100 3, wSmpl 200 4])).Pairwise
      (fun a b => a.timestamp_ms ≤ b.timestamp_ms) ∧
    (reorder ([wSmpl 4000000000 1, wSmpl 4000001000 2]
        ++ [wSmpl 100 3, wSmpl 200 4])).map Sample.payload
      = (([wSmpl 4000000000 1, wSmpl 4000001000 2]
          ++ [wSmpl 100 3, wSmpl 200 4]) : List Sample).map Sample.payload :=
  overflow_reorder_correct
    [wSmpl 4000000000 1, wSmpl 4000001000 2]
    [wSmpl 100 3, wSmpl 200 4]
    (by decide) (by decide)
    (by norm_num [List.chain'_cons, wSmpl])
    (by norm_num [List.chain'_cons, wSmpl])
    (by norm_num [List.chain'_cons, wSmpl, overflowThreshold])
    (by decide)

end ForzaAnalyse
